import Mathlib

/-!
Verification of the `painter` call-graph extraction library (src/src/lib.rs).

The library has three operations:
* `extract_calls` — scan a directory of `.bc` bitcode artifacts, load each as an
  LLVM module, walk its call graph, demangle the raw symbol names and keep only
  edges whose endpoints avoid a fixed denylist of runtime/stdlib substrings;
* `compile_crate` — run the toolchain, relocate emitted `.bc` files into a
  bitcode store and always run the clean stage;
* `clean` — run `cargo clean`, force-remove the `target` subdirectory, and
  report success iff the clean invocation succeeded.

External capabilities (the filesystem, the LLVM bitcode parser, the demangler
and the spawned toolchain processes) are modelled as explicit environment data
handed to the Lean functions; the functions themselves are direct translations
of the Rust control flow.
-/

set_option autoImplicit false

namespace Painter

/-- `Error` (lib.rs lines 8–22): the library's error enum.  `IoError` carries the
formatted IO error, `LLVMError` the parser's message, `CompileFailed` the
combined stdout/stderr text and `CleanFailure` the whole captured process
output. -/
structure ProcOutput where
  success : Bool
  stdout : String
  stderr : String
deriving DecidableEq, Repr

deriving instance DecidableEq for Except

inductive Error where
  | IoError (msg : String)
  | LLVMError (msg : String)
  | CompileFailed (msg : String)
  | CleanFailure (output : ProcOutput)
deriving DecidableEq, Repr

/-- `pat` is a contiguous infix of `l`. -/
def charsContain (pat : List Char) : List Char → Bool
  | [] => pat.isEmpty
  | c :: t => pat.isPrefixOf (c :: t) || charsContain pat t

/-- Rust `str::contains(pat)`: `pat` occurs in `s` as a contiguous substring. -/
def strContains (s pat : String) : Bool :=
  charsContain pat.data s.data

/-- `BLOCKED_STRINGS` (lib.rs line 24). -/
def BLOCKED_STRINGS : List String :=
  ["llvm.", "__rust", "rt::", "std::", "core::", "alloc::"]

/-- The per-edge denylist test (lib.rs lines 56–58):
`BLOCKED_STRINGS.iter().any(|s| src.contains(*s) || dst.contains(*s))` applied
to the two demangled display names. -/
def edgeBlocked (src dst : String) : Bool :=
  BLOCKED_STRINGS.any (fun s => strContains src s || strContains dst s)

/-- The per-edge body of the `for_each` closure (lib.rs lines 52–62), factored
as the spec's `accept` function: demangle both raw symbols (the `demangle`
argument stands for `format!("{:#}", demangle(raw))`, the alternate-mode
display form) and keep the pair iff neither name trips the denylist. -/
def accept (demangle : String → String) (srcRaw dstRaw : String) :
    Option (String × String) :=
  let src := demangle srcRaw
  let dst := demangle dstRaw
  if edgeBlocked src dst then none else some (src, dst)

/-- `accept` applied to a raw edge pair. -/
def acceptEdge (demangle : String → String) (p : String × String) :
    Option (String × String) :=
  accept demangle p.1 p.2

/-- The calls one successfully-loaded module contributes: the `for_each` over
`graph.inner().all_edges()` pushes exactly the accepted pairs, in edge order. -/
def moduleCalls (demangle : String → String) (edges : List (String × String)) :
    List (String × String) :=
  edges.filterMap (acceptEdge demangle)

/-- One directory entry of the scanned bitcode directory, as `extract_calls`
observes it: the file extension (`path().extension()`) and the outcome the
external LLVM capability would report when the file is loaded as a module
(`Module::from_bc_path`): either a parse-error string or the module's call
graph as its raw `(caller, callee)` symbol edges in `all_edges` order. -/
structure BcEntry where
  ext : Option String
  parsed : Except String (List (String × String))
deriving DecidableEq, Repr

/-- Abstract external world consumed by `extract_calls`: the demangler and the
result of `std::fs::read_dir` — `none` when opening the listing itself fails
(the outer `unwrap` panics), otherwise the entries in traversal order, each
either an unreadable entry (`Except.error`, dropped by `filter_map(Result::ok)`)
or a readable one. -/
structure ExtractEnv where
  demangle : String → String
  readDir : Option (List (Except Unit BcEntry))

/-- Outcome of running `extract_calls`: either the process panics (an `unwrap`
on a failed directory read or a failed module parse) or the function returns
its `Result` value. -/
inductive ExtractOutcome where
  | panic
  | ok (r : Except Error (List (String × String)))
deriving DecidableEq, Repr

/-- The directory-scan filter (lib.rs line 42):
`e.path().extension().is_some() && e.path().extension().unwrap() == "bc"`. -/
def isBcEntry (e : BcEntry) : Bool :=
  e.ext.isSome && (e.ext.getD "" == "bc")

/-- The entries the `for` loop actually visits: readable entries whose
extension is `"bc"`, in directory order. -/
def bcEntries (l : List (Except Unit BcEntry)) : List BcEntry :=
  (l.filterMap Except.toOption).filter isBcEntry

/-- The raw edge list of an entry's module when it parses (and `[]` otherwise;
the loop never reaches the edges of a failing entry — it panics first). -/
def edgesOf (e : BcEntry) : List (String × String) :=
  match e.parsed with
  | .ok edges => edges
  | .error _ => []

/-- Whether `Module::from_bc_path` succeeds for the entry. -/
def parsedOk (e : BcEntry) : Bool :=
  match e.parsed with
  | .ok _ => true
  | .error _ => false

/-- The body of the `for bc_entry in …` loop (lib.rs lines 43–62): each entry's
module is loaded (`.map_err(Error::LLVMError).unwrap()` — a parse failure
panics), then its accepted calls are pushed onto the accumulator. -/
def processEntries (demangle : String → String) :
    List BcEntry → List (String × String) → ExtractOutcome
  | [], calls => .ok (.ok calls)
  | e :: rest, calls =>
    match e.parsed with
    | .error _ => .panic
    | .ok edges => processEntries demangle rest (calls ++ moduleCalls demangle edges)

/-- `extract_calls` (lib.rs lines 36–66). -/
def extract_calls (env : ExtractEnv) : ExtractOutcome :=
  match env.readDir with
  | none => .panic
  | some l => processEntries env.demangle (bcEntries l) []

/-! ### The compiler driver and the clean stage -/

/-- Contents of a flat destination directory: file name ↦ file contents. -/
def Store := String → Option String

/-- An empty destination directory. -/
def emptyStore : Store := fun _ => none

/-- `clean` (lib.rs lines 152–168).  Inputs: the captured output of the spawned
`cargo +1.60 clean` process (a launch failure panics and is outside this model)
and the subdirectory names present under `path`.  The code then calls
`std::fs::remove_dir_all(path.join("target"))` and discards its `Result`, so
the removal happens whether or not `target` exists and its outcome is ignored;
finally the exit status alone decides the returned value. -/
def clean (out : ProcOutput) (dirs : List String) :
    Except Error Unit × List String :=
  let dirs' := dirs.filter (fun d => !(d == "target"))
  if out.success then (.ok (), dirs') else (.error (.CleanFailure out), dirs')

/-- One file met by the `WalkDir` traversal of the crate source tree:
its final path component (`file_name`), its extension and its contents. -/
structure SrcFile where
  name : String
  ext : Option String
  content : String
deriving DecidableEq, Repr

/-- The `WalkDir` filter (lib.rs line 120), identical in shape to the
`read_dir` filter of `extract_calls`. -/
def isBcSrc (f : SrcFile) : Bool :=
  f.ext.isSome && (f.ext.getD "" == "bc")

/-- Removing one destination file (`std::fs::remove_file`). -/
def removeFile (store : Store) (n : String) : Store :=
  fun m => if m == n then none else store m

/-- Copying a source file into the destination (`std::fs::copy`). -/
def copyFile (store : Store) (f : SrcFile) : Store :=
  fun m => if m == f.name then some f.content else store m

/-- The per-file body of the relocation `for_each` (lib.rs lines 121–127):
if a same-named destination file exists it is removed first, then the source
file is copied over. -/
def copyStep (store : Store) (f : SrcFile) : Store :=
  let store' := if (store f.name).isSome then removeFile store f.name else store
  copyFile store' f

/-- The artifact-relocation step (lib.rs lines 117–127): walk the source tree,
keep the `.bc` files, and copy each into the destination directory in walk
order. -/
def relocate (files : List SrcFile) (store : Store) : Store :=
  (files.filter isBcSrc).foldl copyStep store

/-- `std::fs::create_dir(&output_dir)` with its `Result` discarded (lib.rs
line 113): ensure the named subdirectory exists, tolerating prior existence.
`dirs` is the list of subdirectory names of the bitcode store root. -/
def ensureDir (dirs : List String) (d : String) : List String :=
  if dirs.contains d then dirs else dirs ++ [d]

/-- The separator placed between stdout and stderr in the `CompileFailed`
message (lib.rs lines 133–137). -/
def compileSep : String := "\n-----------\n"

/-- Abstract external world consumed by `compile_crate`: the captured output
of the `cargo +1.67 rustc …` invocation, the captured output the `cargo clean`
invocation would produce, the files `WalkDir` finds under the crate source
tree, and the subdirectories of the source tree (where `target` lives). -/
structure CompileEnv where
  compileOut : ProcOutput
  cleanOut : ProcOutput
  srcFiles : List SrcFile
  srcDirs : List String

/-- Observable state after `compile_crate`: the returned value, the source
tree's subdirectories after the clean stage, and the bitcode store root's
subdirectories and the destination directory's contents. -/
structure CompileResult where
  result : Except Error Unit
  srcDirs : List String
  storeDirs : List String
  store : Store

/-- `compile_crate` (lib.rs lines 80–141).  On toolchain success: create the
`{name}-{version}` destination directory (result discarded), copy every `.bc`
file over, then run `clean` and propagate its error (`?`).  On toolchain
failure: run `clean`, propagate its error (`?`), and only then return
`CompileFailed` carrying `"{stdout}\n-----------\n{stderr}"`.  Process-launch
failures and non-UTF-8 output panic in the source and are outside this model. -/
def compile_crate (name version : String) (env : CompileEnv)
    (storeDirs : List String) (store : Store) : CompileResult :=
  let fullname := name ++ "-" ++ version
  let cleaned := clean env.cleanOut env.srcDirs
  if env.compileOut.success then
    let storeDirs' := ensureDir storeDirs fullname
    let store' := relocate env.srcFiles store
    match cleaned.1 with
    | .ok _ => ⟨.ok (), cleaned.2, storeDirs', store'⟩
    | .error e => ⟨.error e, cleaned.2, storeDirs', store'⟩
  else
    match cleaned.1 with
    | .ok _ =>
        ⟨.error (.CompileFailed
            (env.compileOut.stdout ++ compileSep ++ env.compileOut.stderr)),
          cleaned.2, storeDirs, store⟩
    | .error e => ⟨.error e, cleaned.2, storeDirs, store⟩

/-- Whether a returned value is a `CompileFailed` error. -/
def isCompileFailed : Except Error Unit → Bool
  | .error (.CompileFailed _) => true
  | _ => false

/-! ### Helper lemmas -/

theorem accept_of_not_blocked (d : String → String) (a b : String)
    (h : edgeBlocked (d a) (d b) = false) :
    accept d a b = some (d a, d b) := by
  simp [accept, h]

theorem accept_eq_some (d : String → String) (a b : String)
    (p : String × String) (h : accept d a b = some p) :
    p = (d a, d b) ∧ edgeBlocked (d a) (d b) = false := by
  cases hb : edgeBlocked (d a) (d b) with
  | true => simp [accept, hb] at h
  | false =>
      simp only [accept, hb, Bool.false_eq_true, if_false, Option.some.injEq] at h
      exact ⟨h.symm, rfl⟩

theorem processEntries_cons_ok (d : String → String) (e : BcEntry)
    (rest : List BcEntry) (acc edges : List (String × String))
    (hp : e.parsed = .ok edges) :
    processEntries d (e :: rest) acc =
      processEntries d rest (acc ++ moduleCalls d edges) := by
  rw [processEntries, hp]

theorem processEntries_cons_err (d : String → String) (e : BcEntry)
    (rest : List BcEntry) (acc : List (String × String)) (m : String)
    (hp : e.parsed = .error m) :
    processEntries d (e :: rest) acc = .panic := by
  rw [processEntries, hp]

theorem processEntries_allOk (d : String → String) (es : List BcEntry) :
    ∀ acc, es.all parsedOk = true →
      processEntries d es acc =
        .ok (.ok (acc ++ es.flatMap (fun e => moduleCalls d (edgesOf e)))) := by
  induction es with
  | nil => intro acc _; simp [processEntries]
  | cons e rest ih =>
      intro acc h
      simp only [List.all_cons, Bool.and_eq_true] at h
      obtain ⟨edges, hp⟩ : ∃ edges, e.parsed = .ok edges := by
        cases hp : e.parsed with
        | ok edges => exact ⟨edges, rfl⟩
        | error m => have := h.1; simp [parsedOk, hp] at this
      rw [processEntries_cons_ok d e rest acc edges hp, ih _ h.2]
      simp [edgesOf, hp, List.append_assoc]

theorem processEntries_panic (d : String → String) (es : List BcEntry) :
    ∀ acc, es.all parsedOk = false → processEntries d es acc = .panic := by
  induction es with
  | nil => intro acc h; simp at h
  | cons e rest ih =>
      intro acc h
      cases hp : e.parsed with
      | error m => exact processEntries_cons_err d e rest acc m hp
      | ok edges =>
          rw [processEntries_cons_ok d e rest acc edges hp]
          apply ih
          simp only [List.all_cons, Bool.and_eq_false_iff] at h
          rcases h with h | h
          · simp [parsedOk, hp] at h
          · exact h

theorem extract_calls_some (env : ExtractEnv)
    (l : List (Except Unit BcEntry)) (h : env.readDir = some l) :
    extract_calls env = processEntries env.demangle (bcEntries l) [] := by
  rw [extract_calls, h]

theorem extract_calls_none (env : ExtractEnv) (h : env.readDir = none) :
    extract_calls env = .panic := by
  rw [extract_calls, h]

theorem extract_calls_ok_eq (env : ExtractEnv) (l : List (Except Unit BcEntry))
    (h1 : env.readDir = some l) (h2 : (bcEntries l).all parsedOk = true) :
    extract_calls env =
      .ok (.ok ((bcEntries l).flatMap
        (fun e => moduleCalls env.demangle (edgesOf e)))) := by
  rw [extract_calls_some env l h1]
  simpa using processEntries_allOk env.demangle (bcEntries l) [] h2

theorem extract_calls_ok_allParsed (env : ExtractEnv)
    (l : List (Except Unit BcEntry)) (r : Except Error (List (String × String)))
    (h1 : env.readDir = some l) (h2 : extract_calls env = .ok r) :
    (bcEntries l).all parsedOk = true := by
  cases hb : (bcEntries l).all parsedOk with
  | true => rfl
  | false =>
      rw [extract_calls_some env l h1,
        processEntries_panic env.demangle (bcEntries l) [] hb] at h2
      exact ExtractOutcome.noConfusion h2

theorem mem_calls_not_blocked (env : ExtractEnv)
    (calls : List (String × String)) (p : String × String)
    (h1 : extract_calls env = .ok (.ok calls)) (h2 : p ∈ calls) :
    edgeBlocked p.1 p.2 = false := by
  cases hd : env.readDir with
  | none => rw [extract_calls_none env hd] at h1; exact ExtractOutcome.noConfusion h1
  | some l =>
      have hall := extract_calls_ok_allParsed env l (.ok calls) hd h1
      rw [extract_calls_ok_eq env l hd hall] at h1
      have hcalls : calls =
          (bcEntries l).flatMap (fun e => moduleCalls env.demangle (edgesOf e)) := by
        injection h1 with h1'; injection h1' with h1''; exact h1''.symm
      rw [hcalls] at h2
      obtain ⟨e, _, hpe⟩ := List.mem_flatMap.mp h2
      obtain ⟨q, _, hq⟩ := List.mem_filterMap.mp hpe
      have hacc := accept_eq_some env.demangle q.1 q.2 p hq
      rw [hacc.1]
      exact hacc.2

theorem beq_comm_str (a b : String) : (a == b) = (b == a) := by
  cases hn : a == b
  · symm; exact beq_eq_false_iff_ne.mpr fun hh => (beq_eq_false_iff_ne.mp hn) hh.symm
  · symm; exact beq_iff_eq.mpr (beq_iff_eq.mp hn).symm

theorem copyStep_eq (store : Store) (f : SrcFile) :
    copyStep store f = fun n => if n == f.name then some f.content else store n := by
  funext n
  simp only [copyStep, copyFile, removeFile]
  cases hn : (n == f.name) with
  | true => cases hs : (store f.name).isSome <;> simp [removeFile, hn, hs]
  | false => cases hs : (store f.name).isSome <;> simp [removeFile, hn, hs]

theorem foldl_copyStep_lookup (bcs : List SrcFile) :
    ∀ (store : Store) (n : String),
      bcs.foldl copyStep store n =
        (match bcs.reverse.find? (fun f => f.name == n) with
          | some f => some f.content
          | none => store n) := by
  induction bcs with
  | nil => intro store n; rfl
  | cons f fs ih =>
      intro store n
      rw [List.foldl_cons, ih (copyStep store f) n, List.reverse_cons,
        List.find?_append]
      cases hf : fs.reverse.find? (fun g => g.name == n) with
      | some g => simp [Option.or]
      | none =>
          have hsingle : [f].find? (fun g => g.name == n) =
              if (f.name == n) then some f else none := by
            cases hb : (f.name == n) <;> simp [List.find?, hb]
          simp only [Option.or, hsingle, copyStep_eq]
          rw [beq_comm_str n f.name]
          cases hb : (f.name == n) <;> simp [hb]

theorem relocate_lookup (files : List SrcFile) (store : Store) (n : String) :
    relocate files store n =
      (match (files.filter isBcSrc).reverse.find? (fun f => f.name == n) with
        | some f => some f.content
        | none => store n) :=
  foldl_copyStep_lookup (files.filter isBcSrc) store n

theorem relocate_idem (files : List SrcFile) (store : Store) :
    relocate files (relocate files store) = relocate files store := by
  funext n
  rw [relocate_lookup files (relocate files store) n]
  cases hf : (files.filter isBcSrc).reverse.find? (fun f => f.name == n) with
  | some f =>
      simp only [hf]
      rw [relocate_lookup files store n, hf]
  | none => simp only [hf]

theorem ensureDir_mem (dirs : List String) (d : String) : d ∈ ensureDir dirs d := by
  by_cases h : d ∈ dirs <;> simp [ensureDir, h]

theorem ensureDir_of_mem (l : List String) (d : String) (h : d ∈ l) :
    ensureDir l d = l := by
  simp [ensureDir, h]

theorem ensureDir_idem (dirs : List String) (d : String) :
    ensureDir (ensureDir dirs d) d = ensureDir dirs d :=
  ensureDir_of_mem _ _ (ensureDir_mem dirs d)

theorem target_not_mem_clean (dirs : List String) :
    "target" ∉ dirs.filter (fun x => !(x == "target")) := by
  intro h
  have := (List.mem_filter.mp h).2
  simp at this

/-! ### The claims -/

/-- Claim C1, filter soundness: whenever `extract_calls` returns a call list,
a raw edge whose demangled caller or callee display name contains one of the
`BLOCKED_STRINGS` substrings is rejected — its demangled pair is not in the
returned sequence. -/
theorem filter_soundness (env : ExtractEnv) (calls : List (String × String))
    (srcRaw dstRaw : String)
    (h1 : extract_calls env = .ok (.ok calls))
    (h2 : edgeBlocked (env.demangle srcRaw) (env.demangle dstRaw) = true) :
    (env.demangle srcRaw, env.demangle dstRaw) ∉ calls := by
  intro hmem
  have hb := mem_calls_not_blocked env calls _ h1 hmem
  simp [h2] at hb

theorem filter_soundness_witness :
    extract_calls ⟨id, some [Except.ok ⟨some "bc", .ok [("std::a", "b")]⟩]⟩ =
        .ok (.ok []) ∧
      edgeBlocked (id "std::a") (id "b") = true ∧
      (id "std::a", id "b") ∉ ([] : List (String × String)) :=
  ⟨by decide, by decide,
    filter_soundness ⟨id, some [Except.ok ⟨some "bc", .ok [("std::a", "b")]⟩]⟩
      [] "std::a" "b" (by decide) (by decide)⟩

/-- Claim C2, filter completeness: a raw edge of a scanned, parsed `.bc`
module whose demangled names avoid every denylisted substring is accepted —
`accept` returns the demangled pair unchanged (caller first, callee second,
each the alternate-mode demangling of the raw symbol) and the pair is in the
sequence `extract_calls` returns. -/
theorem filter_completeness (env : ExtractEnv)
    (l : List (Except Unit BcEntry)) (e : BcEntry)
    (es : List (String × String)) (a b : String)
    (calls : List (String × String))
    (h1 : env.readDir = some l) (h2 : Except.ok e ∈ l)
    (h3 : e.ext = some "bc") (h4 : e.parsed = .ok es) (h5 : (a, b) ∈ es)
    (h6 : edgeBlocked (env.demangle a) (env.demangle b) = false)
    (h7 : extract_calls env = .ok (.ok calls)) :
    accept env.demangle a b = some (env.demangle a, env.demangle b) ∧
      (env.demangle a, env.demangle b) ∈ calls := by
  have hacc := accept_of_not_blocked env.demangle a b h6
  refine ⟨hacc, ?_⟩
  have hall := extract_calls_ok_allParsed env l (.ok calls) h1 h7
  rw [extract_calls_ok_eq env l h1 hall] at h7
  have hcalls : calls =
      (bcEntries l).flatMap (fun e => moduleCalls env.demangle (edgesOf e)) := by
    injection h7 with h7'; injection h7' with h7''; exact h7''.symm
  rw [hcalls]
  apply List.mem_flatMap.mpr
  refine ⟨e, ?_, ?_⟩
  · rw [bcEntries]
    apply List.mem_filter.mpr
    refine ⟨List.mem_filterMap.mpr ⟨Except.ok e, h2, rfl⟩, ?_⟩
    simp [isBcEntry, h3]
  · have hes : edgesOf e = es := by simp [edgesOf, h4]
    rw [hes, moduleCalls]
    exact List.mem_filterMap.mpr ⟨(a, b), h5, hacc⟩

theorem filter_completeness_witness :
    (accept id "f::g" "h::k" = some (id "f::g", id "h::k") ∧
      (id "f::g", id "h::k") ∈ [((("f::g" : String), ("h::k" : String)))]) :=
  filter_completeness ⟨id, some [Except.ok ⟨some "bc", .ok [("f::g", "h::k")]⟩]⟩
    [Except.ok ⟨some "bc", .ok [("f::g", "h::k")]⟩]
    ⟨some "bc", .ok [("f::g", "h::k")]⟩ [("f::g", "h::k")] "f::g" "h::k"
    [("f::g", "h::k")] rfl (by decide) (by decide) (by decide) (by decide)
    (by decide) (by decide)

/-- Claim C3: a directory-read failure, or any scanned `.bc` artifact whose
module fails to parse, makes `extract_calls` panic (the whole extraction
aborts); no typed error value is returned and nothing is skipped. -/
theorem parse_failure_panics (d : String → String) (env : ExtractEnv)
    (l : List (Except Unit BcEntry))
    (h1 : env.readDir = some l)
    (h2 : (bcEntries l).all parsedOk = false) :
    extract_calls ⟨d, none⟩ = .panic ∧ extract_calls env = .panic := by
  refine ⟨rfl, ?_⟩
  rw [extract_calls_some env l h1]
  exact processEntries_panic env.demangle (bcEntries l) [] h2

theorem parse_failure_panics_witness :
    extract_calls ⟨id, none⟩ = .panic ∧
      extract_calls ⟨id, some [Except.ok ⟨some "bc", .error "bad bitcode"⟩]⟩ =
        .panic :=
  parse_failure_panics id
    ⟨id, some [Except.ok ⟨some "bc", .error "bad bitcode"⟩]⟩
    [Except.ok ⟨some "bc", .error "bad bitcode"⟩] rfl (by decide)

/-- Claim C5: when every scanned `.bc` artifact parses, `extract_calls`
returns the concatenation, in directory-discovery order, of each module's
accepted calls — flat, not deduplicated, not sorted; in particular a
directory of two `.bc` artifacts contributing one accepted edge each yields
exactly those two pairs in traversal order. -/
theorem extraction_additive (env : ExtractEnv)
    (l : List (Except Unit BcEntry)) (d : String → String)
    (e1 e2 : BcEntry) (es1 es2 : List (String × String))
    (p1 p2 : String × String)
    (h1 : env.readDir = some l) (h2 : (bcEntries l).all parsedOk = true)
    (h3 : e1.ext = some "bc") (h4 : e2.ext = some "bc")
    (h5 : e1.parsed = .ok es1) (h6 : e2.parsed = .ok es2)
    (h7 : moduleCalls d es1 = [p1]) (h8 : moduleCalls d es2 = [p2]) :
    extract_calls env = .ok (.ok ((bcEntries l).flatMap
        (fun e => moduleCalls env.demangle (edgesOf e)))) ∧
      extract_calls ⟨d, some [Except.ok e1, Except.ok e2]⟩ =
        .ok (.ok [p1, p2]) := by
  refine ⟨extract_calls_ok_eq env l h1 h2, ?_⟩
  have hbc : bcEntries [Except.ok e1, Except.ok e2] = [e1, e2] := by
    simp [bcEntries, List.filterMap_cons, Except.toOption, List.filter_cons,
      isBcEntry, h3, h4]
  have hall : ([e1, e2]).all parsedOk = true := by
    simp [parsedOk, h5, h6]
  rw [extract_calls_some _ _ rfl, hbc,
    processEntries_allOk d [e1, e2] [] hall]
  simp [edgesOf, h5, h6, h7, h8]

theorem extraction_additive_witness :
    extract_calls ⟨id, some [Except.ok ⟨some "bc", .ok [("a", "b")]⟩,
          Except.ok ⟨some "bc", .ok [("c", "d")]⟩]⟩ =
        .ok (.ok ((bcEntries [Except.ok ⟨some "bc", .ok [("a", "b")]⟩,
          Except.ok ⟨some "bc", .ok [("c", "d")]⟩]).flatMap
            (fun e => moduleCalls id (edgesOf e)))) ∧
      extract_calls ⟨id, some [Except.ok ⟨some "bc", .ok [("a", "b")]⟩,
          Except.ok ⟨some "bc", .ok [("c", "d")]⟩]⟩ =
        .ok (.ok [("a", "b"), ("c", "d")]) :=
  extraction_additive
    ⟨id, some [Except.ok ⟨some "bc", .ok [("a", "b")]⟩,
      Except.ok ⟨some "bc", .ok [("c", "d")]⟩]⟩
    [Except.ok ⟨some "bc", .ok [("a", "b")]⟩,
      Except.ok ⟨some "bc", .ok [("c", "d")]⟩] id
    ⟨some "bc", .ok [("a", "b")]⟩ ⟨some "bc", .ok [("c", "d")]⟩
    [("a", "b")] [("c", "d")] ("a", "b") ("c", "d")
    rfl (by decide) (by decide) (by decide) (by decide) (by decide)
    (by decide) (by decide)

/-- Claim C8, extension filtering: a directory entry that fails the `.bc`
extension test contributes nothing — deleting it from the listing leaves the
outcome of `extract_calls` unchanged (so its module is never loaded: even a
parse failure in it cannot affect the result). -/
theorem extension_filtering (d : String → String)
    (l1 l2 : List (Except Unit BcEntry)) (e : BcEntry)
    (h : isBcEntry e = false) :
    extract_calls ⟨d, some (l1 ++ Except.ok e :: l2)⟩ =
      extract_calls ⟨d, some (l1 ++ l2)⟩ := by
  rw [extract_calls_some _ _ rfl, extract_calls_some _ _ rfl]
  have hbc : bcEntries (l1 ++ Except.ok e :: l2) = bcEntries (l1 ++ l2) := by
    simp [bcEntries, List.filterMap_append, List.filter_append,
      List.filterMap_cons, Except.toOption, List.filter_cons, h]
  rw [hbc]

theorem extension_filtering_witness :
    extract_calls ⟨id, some ([] ++ Except.ok (⟨some "txt", .error "not bitcode"⟩ : Painter.BcEntry) :: [])⟩ =
      extract_calls ⟨id, some ([] ++ [])⟩ :=
  extension_filtering id [] [] ⟨some "txt", .error "not bitcode"⟩ (by decide)

/-- Claim C9: `extract_calls` never constructs an `Error` value — every
non-panicking run returns `Ok` of the collected pairs, and a listing with no
`.bc` artifacts yields `Ok` of the empty sequence. -/
theorem extract_calls_never_err (env : ExtractEnv) (d : String → String)
    (l : List (Except Unit BcEntry)) (h : bcEntries l = []) :
    extract_calls ⟨d, some l⟩ = .ok (.ok []) ∧
      (extract_calls env = .panic ∨
        ∃ calls, extract_calls env = .ok (.ok calls)) := by
  constructor
  · rw [extract_calls_some _ _ rfl, h]
    rfl
  · cases hd : env.readDir with
    | none => exact Or.inl (extract_calls_none env hd)
    | some l' =>
        cases hb : (bcEntries l').all parsedOk with
        | false =>
            refine Or.inl ?_
            rw [extract_calls_some env l' hd]
            exact processEntries_panic env.demangle (bcEntries l') [] hb
        | true => exact Or.inr ⟨_, extract_calls_ok_eq env l' hd hb⟩

theorem extract_calls_never_err_witness :
    extract_calls ⟨id, some [Except.ok (⟨some "txt", .ok []⟩ : Painter.BcEntry)]⟩ =
        .ok (.ok []) ∧
      (extract_calls ⟨id, none⟩ = .panic ∨
        ∃ calls, extract_calls ⟨id, none⟩ = .ok (.ok calls)) :=
  extract_calls_never_err ⟨id, none⟩ id
    [Except.ok ⟨some "txt", .ok []⟩] (by decide)

/-- Claim C10: during directory iteration an unreadable entry is silently
skipped (removing it from the listing leaves the outcome unchanged), while a
failure to open the directory listing itself panics. -/
theorem dir_entry_skipped (d : String → String)
    (l1 l2 : List (Except Unit BcEntry)) :
    extract_calls ⟨d, some (l1 ++ Except.error () :: l2)⟩ =
        extract_calls ⟨d, some (l1 ++ l2)⟩ ∧
      extract_calls ⟨d, none⟩ = .panic := by
  refine ⟨?_, rfl⟩
  rw [extract_calls_some _ _ rfl, extract_calls_some _ _ rfl]
  have hbc : bcEntries (l1 ++ Except.error () :: l2) = bcEntries (l1 ++ l2) := by
    simp [bcEntries, List.filterMap_append, List.filterMap_cons,
      Except.toOption]
  rw [hbc]

/-- Claim C6: `clean` succeeds exactly when the clean invocation's exit
status does; on non-zero status it returns `CleanFailure` carrying the whole
captured process output; the forced removal of the `target` subdirectory is
applied unconditionally (tolerating absence, since filtering is total) and
its outcome never influences the returned value. -/
theorem clean_spec (out : ProcOutput) (dirs dirs' : List String) :
    (clean out dirs).1 =
        (if out.success then .ok () else .error (.CleanFailure out)) ∧
      (clean out dirs).2 = dirs.filter (fun x => !(x == "target")) ∧
      (clean out dirs).1 = (clean out dirs').1 := by
  cases hs : out.success <;> simp [clean, hs]

/-- Claim C7: the artifact-relocation step is idempotent on the destination —
running it twice equals running it once; each copy overwrites a same-named
destination file in place (never duplicating, never failing); and creating
the destination subdirectory tolerates its prior existence. -/
theorem relocation_idempotent :
    (∀ (files : List SrcFile) (store : Store),
        relocate files (relocate files store) = relocate files store) ∧
      (∀ (store : Store) (f : SrcFile),
        copyStep store f =
          fun n => if n == f.name then some f.content else store n) ∧
      (∀ (dirs : List String) (d : String),
        ensureDir (ensureDir dirs d) d = ensureDir dirs d) :=
  ⟨relocate_idem, copyStep_eq, ensureDir_idem⟩

/-- Claim C4 (amended): when the toolchain exits with non-zero status the
clean stage still runs (afterwards the source tree has no `target`
subdirectory) and `compile_crate` never reports success: it returns
`CompileFailed` carrying both captured output streams as text when the clean
invocation succeeds, but when the clean invocation itself fails the
propagated `CleanFailure` masks the compile failure. -/
theorem compile_failure_cleans_up (n v : String) (env : CompileEnv)
    (sd : List String) (st : Store)
    (h : env.compileOut.success = false) :
    "target" ∉ (compile_crate n v env sd st).srcDirs ∧
      (compile_crate n v env sd st).result =
        (if env.cleanOut.success then
          .error (.CompileFailed
            (env.compileOut.stdout ++ compileSep ++ env.compileOut.stderr))
        else .error (.CleanFailure env.cleanOut)) := by
  constructor
  · cases hc : env.cleanOut.success <;>
      · simp only [compile_crate, clean, h, hc]
        simp only [Bool.false_eq_true, if_false, if_true]
        exact target_not_mem_clean env.srcDirs
  · cases hc : env.cleanOut.success <;> simp [compile_crate, clean, h, hc]

theorem compile_failure_cleans_up_witness :
    ((⟨⟨false, "so", "se"⟩, ⟨false, "co", "ce"⟩, [], ["target"]⟩ :
        CompileEnv).compileOut.success = false) ∧
      ("target" ∉ (compile_crate "nm" "0.1"
          ⟨⟨false, "so", "se"⟩, ⟨false, "co", "ce"⟩, [], ["target"]⟩
          [] emptyStore).srcDirs ∧
        (compile_crate "nm" "0.1"
            ⟨⟨false, "so", "se"⟩, ⟨false, "co", "ce"⟩, [], ["target"]⟩
            [] emptyStore).result =
          (if (⟨false, "co", "ce"⟩ : ProcOutput).success then
            .error (.CompileFailed ("so" ++ compileSep ++ "se"))
          else .error (.CleanFailure ⟨false, "co", "ce"⟩))) :=
  ⟨rfl, compile_failure_cleans_up "nm" "0.1"
    ⟨⟨false, "so", "se"⟩, ⟨false, "co", "ce"⟩, [], ["target"]⟩
    [] emptyStore rfl⟩

/-- Claim C4, counterexample to the original statement: a compile invocation
with non-zero status whose subsequent clean invocation also fails makes
`compile_crate` return `CleanFailure`, not the claimed `CompileFailed`. -/
theorem compile_failure_not_always_CompileFailed :
    (compile_crate "nm" "0.1"
        ⟨⟨false, "so", "se"⟩, ⟨false, "co", "ce"⟩, [], []⟩
        [] emptyStore).result = .error (.CleanFailure ⟨false, "co", "ce"⟩) ∧
      isCompileFailed (compile_crate "nm" "0.1"
        ⟨⟨false, "so", "se"⟩, ⟨false, "co", "ce"⟩, [], []⟩
        [] emptyStore).result = false := by
  constructor <;> rfl

end Painter
